import Mathlib

/-!
Verification of `src/pagerank.py`.

Shallow embedding of the PageRank implementation in `src/pagerank.py`.

Modelling conventions:
* Python `dict`s are association lists in insertion order (`List (key × value)`);
  `set`s of pages are duplicate-free `List Page`.
* Python floats are modelled as exact rationals (`ℚ`); the literals `0.85` and
  `0.001` become `17/20` and `1/1000`.
* A raised exception (`KeyError`, `ZeroDivisionError`, `IndexError`,
  `ValueError`) is modelled by the function returning `none`.
* Randomness (`random.choice`, `random.choices`) is modelled by an oracle
  `ℕ → ℕ` supplying, at each step, an index into the candidate list (reduced
  modulo its length); any actual random run corresponds to some oracle.
* The unbounded `while` loop of `iterate_pagerank` is modelled with a fuel
  parameter; exhausted fuel (the loop still running) also yields `none`.
* The `print` calls in `iterate_pagerank` (lines 114, 118, 124) only write to
  stdout and are not modelled.
-/

abbrev Page := String

/-- A corpus: Python `dict` mapping each page to the list of pages it links to
(`corpus` in the source). -/
abbrev Corpus := List (Page × List Page)

/-- A rank / probability mapping: Python `dict` from page to rational value. -/
abbrev RankMap := List (Page × ℚ)

/-- The key list of a corpus, in dict order (`list(corpus.keys())`). -/
def corpusKeys (c : Corpus) : List Page := c.map Prod.fst

/-- Sum of the values of a rank/probability mapping (`sum(d.values())`). -/
def sumValues (d : RankMap) : ℚ := (d.map Prod.snd).sum

/-- Embeds `transition_model(corpus, page, damping_factor)`
(src/pagerank.py lines 54-74).

The source reads `linked = corpus[page]` (KeyError when `page` is not a key,
hence `none`), then for every `page` of the corpus assigns
`(1-damping_factor)/len(corpus)` and, when that page is in `linked`, adds
`len(linked)/damping_factor` (line 72 as written in the source).  When
`damping_factor = 0` and some corpus key lies in `linked`, line 72 raises
`ZeroDivisionError`, hence `none`. -/
def transition_model (corpus : Corpus) (page : Page) (damping_factor : ℚ) :
    Option RankMap :=
  match corpus.lookup page with
  | none => none
  | some linked =>
    if damping_factor = 0 ∧ ∃ kv ∈ corpus, kv.1 ∈ linked then
      none
    else
      some (corpus.map (fun kv =>
        (kv.1, (1 - damping_factor) / (corpus.length : ℚ) +
          (if kv.1 ∈ linked then (linked.length : ℚ) / damping_factor else 0))))

/-- Embeds `rank[page] = rank.get(page, 0) + 1` (line 93): increment the count
of `page`, appending a fresh entry at the end when absent (Python dict
insertion order). -/
def bump (rank : List (Page × ℕ)) (page : Page) : List (Page × ℕ) :=
  match rank with
  | [] => [(page, 1)]
  | kv :: rest =>
    if kv.1 = page then (kv.1, kv.2 + 1) :: rest else kv :: bump rest page

/-- The mutable state visible to the sampler's loop: the corpus dict (passed by
reference in Python, so recorded in the state to express frame properties),
the current page, and the visit-count dict. -/
structure SamplerState where
  corpus : Corpus
  page : Page
  rank : List (Page × ℕ)
deriving DecidableEq

/-- Selects `l.get` at an oracle-chosen index reduced modulo the length. -/
def pickFrom (l : List (Page × ℚ)) (pick : ℕ) (h : 0 < l.length) : Page :=
  (l.get ⟨pick % l.length, Nat.mod_lt _ h⟩).1

/-- One iteration of the sampling loop body (lines 89-93): compute the
transition model for the current page and draw the next page by weighted
choice.  `random.choices` raises on an empty population (IndexError) and on a
non-positive total weight (ValueError), hence `none` in those cases. -/
def sampleStep (d : ℚ) (pick : ℕ) (s : SamplerState) : Option SamplerState :=
  match transition_model s.corpus s.page d with
  | none => none
  | some [] => none
  | some (m :: ms) =>
    if sumValues (m :: ms) ≤ 0 then none
    else
      let next := pickFrom (m :: ms) pick (Nat.succ_pos ms.length)
      some ⟨s.corpus, next, bump s.rank next⟩

/-- The sampling loop `for i in range(n)` (lines 88-93), consuming one oracle
value per step. -/
def sampleLoop (d : ℚ) : (ℕ → ℕ) → ℕ → SamplerState → Option SamplerState
  | _, 0, s => some s
  | oracle, steps + 1, s =>
    match sampleStep d (oracle 0) s with
    | none => none
    | some s2 => sampleLoop d (fun k => oracle (k + 1)) steps s2

/-- Embeds `sample_pagerank(corpus, damping_factor, n)`
(src/pagerank.py lines 77-98).

`random.choice(list(corpus.keys()))` raises IndexError on an empty corpus
(`none`); the initial page is the oracle-chosen key.  `n` is an `ℤ` as in
Python; `range(n)` runs `max n 0` times.  Afterwards each recorded count is
divided by `n`. -/
def sample_pagerank (corpus : Corpus) (damping_factor : ℚ) (oracle : ℕ → ℕ)
    (n : ℤ) : Option RankMap :=
  match corpus with
  | [] => none
  | c :: cs =>
    let start :=
      ((c :: cs).get ⟨oracle 0 % (c :: cs).length, Nat.mod_lt _ (Nat.succ_pos cs.length)⟩).1
    match sampleLoop damping_factor (fun k => oracle (k + 1)) n.toNat
        ⟨c :: cs, start, []⟩ with
    | none => none
    | some s => some (s.rank.map (fun kv => (kv.1, (kv.2 : ℚ) / (n : ℚ))))

/-- Embeds the dict comprehension of line 111: every corpus page starts at
rank `1/len(corpus)`. -/
def initRank (corpus : Corpus) : RankMap :=
  corpus.map (fun kv => (kv.1, 1 / (corpus.length : ℚ)))

/-- Embeds the `reverse_corpus` construction (lines 113-124) read at key `q`:
the pages `p` appended to `reverse_corpus[q]`, in corpus order — every
dangling page (empty link set, line 117) and every page whose link set
contains `q`. -/
def origins (corpus : Corpus) (q : Page) : List Page :=
  (corpus.filter (fun kv => decide (kv.2 = [] ∨ q ∈ kv.2))).map Prod.fst

/-- Reads `corpus[link]` for an origin page (always a corpus key, so the
lookup cannot raise). -/
def linksOf (corpus : Corpus) (p : Page) : List Page :=
  (corpus.lookup p).getD []

/-- Embeds the per-page update of lines 136-145: a ZeroDivisionError is raised
at line 144 whenever some origin page has an empty link set; otherwise the new
rank is `(1-d)/n_pages + d * Σ old_rank[link]/len(corpus[link])` over the
origin pages. -/
def newRank (corpus : Corpus) (d : ℚ) (old : RankMap) (q : Page) : Option ℚ :=
  let org := origins corpus q
  if org.any (fun p => (linksOf corpus p).isEmpty) then none
  else
    some ((1 - d) / (corpus.length : ℚ) +
      d * (org.map (fun p => ((old.lookup p).getD 0) / ((linksOf corpus p).length : ℚ))).sum)

/-- Embeds the dict assignment `rank[page] = v` for an existing key (line 145):
replace the value stored at `p`, keeping dict order. -/
def setval (rank : RankMap) (p : Page) (v : ℚ) : RankMap :=
  rank.map (fun kv => if kv.1 = p then (kv.1, v) else kv)

/-- Embeds the `for page in rank` pass (lines 135-147): pages are updated in
place in `rank` while every read goes to the frozen `old` snapshot
(`old_rank`); the `changes` flag is or-ed with `|new - old| > 0.001`
(line 146). -/
def passPages (corpus : Corpus) (d : ℚ) (old : RankMap) :
    List Page → RankMap → Bool → Option (RankMap × Bool)
  | [], rank, changes => some (rank, changes)
  | q :: rest, rank, changes =>
    match newRank corpus d old q with
    | none => none
    | some v =>
      passPages corpus d old rest (setval rank q v)
        (changes || decide ((1 : ℚ)/1000 < |v - ((old.lookup q).getD 0)|))

/-- The mutable state visible to the solver's loop: the corpus dict (by
reference, as for the sampler), the working `rank` dict and the frozen
`old_rank` snapshot. -/
structure SolverState where
  corpus : Corpus
  rank : RankMap
  old : RankMap
deriving DecidableEq

/-- One full execution of the `while` body (lines 132-148): run the page pass
over the keys of `rank`, then `old_rank = copy.deepcopy(rank)` (line 148). -/
def solverPass (d : ℚ) (st : SolverState) : Option (SolverState × Bool) :=
  match passPages st.corpus d st.old (st.rank.map Prod.fst) st.rank false with
  | none => none
  | some (r, changes) => some (⟨st.corpus, r, r⟩, changes)

/-- Embeds the loop guard of line 131 literally:
`while changes or safety > 1000`. -/
def loop_should_continue (changes : Bool) (safety : ℕ) : Bool :=
  changes || decide (1000 < safety)

/-- The `while` loop of lines 131-148, with fuel.  `safety` is threaded
unchanged because no statement of the loop body modifies it in the source. -/
def iterLoop (d : ℚ) : ℕ → Bool → ℕ → SolverState → Option SolverState
  | 0, _, _, _ => none
  | fuel + 1, changes, safety, st =>
    if loop_should_continue changes safety then
      match solverPass d st with
      | none => none
      | some (st2, ch2) => iterLoop d fuel ch2 safety st2
    else some st

/-- Embeds `iterate_pagerank(corpus, damping_factor)`
(src/pagerank.py lines 101-150): rank and `old_rank` start as the uniform
dict, `changes = True`, `safety = 0`; the loop runs until its guard fails
(or the fuel models it still running). -/
def iterate_pagerank (corpus : Corpus) (damping_factor : ℚ) (fuel : ℕ) :
    Option RankMap :=
  match iterLoop damping_factor fuel true 0 ⟨corpus, initRank corpus, initRank corpus⟩ with
  | none => none
  | some st => some st.rank

/-- Modelled from the spec: a Jacobi-style simultaneous pass — every page of
`l` gets the value `newRank` computes from the frozen `old` snapshot, with no
in-place state.  Used as the comparison point for the order-independence
claim. -/
def jacobiList (corpus : Corpus) (d : ℚ) (old : RankMap) : List Page → Option RankMap
  | [] => some []
  | q :: rest =>
    match newRank corpus d old q, jacobiList corpus d old rest with
    | some v, some r => some ((q, v) :: r)
    | _, _ => none

/-- Modelled from the spec: the simultaneous (Jacobi) update of all corpus
pages from the frozen `old` snapshot. -/
def passJacobi (corpus : Corpus) (d : ℚ) (old : RankMap) : Option RankMap :=
  jacobiList corpus d old (corpusKeys corpus)

/-- The probability that the sampler's weighted draw (line 91) moves from page
`p` to page `q`: the weight `transition_model` assigns to `q`, normalised by
the total weight (`random.choices` normalises implicitly). -/
def stepProb (corpus : Corpus) (d : ℚ) (p q : Page) : ℚ :=
  match transition_model corpus p d with
  | none => 0
  | some m => ((m.lookup q).getD 0) / sumValues m

/-! ## Concrete inputs used by the individual claims -/

/-- Two pages that link to each other (used for C1). -/
def c1corpus : Corpus := [("a", ["b"]), ("b", ["a"])]

/-- A corpus with a dangling page `1.html` (used for C2). -/
def c2corpus : Corpus := [("1.html", []), ("2.html", ["1.html"])]

/-- The solver state at the start of the first pass on `c2corpus`. -/
def c2state : SolverState := ⟨c2corpus, initRank c2corpus, initRank c2corpus⟩

/-- A single dangling page (used for C3). -/
def c3corpus : Corpus := [("1.html", [])]

/-- Two pages that link to each other (used for C5). -/
def c5corpus : Corpus := [("pa", ["pb"]), ("pb", ["pa"])]

/-- A one-page corpus (used for C6). -/
def c6corpus : Corpus := [("a", [])]

/-- Two pages that link to each other (used for the C7 witness). -/
def c7corpus : Corpus := [("x", ["y"]), ("y", ["x"])]

/-- A rank snapshot over the keys of `c7corpus` (used for the C7 witness). -/
def c7old : RankMap := [("x", 1/2), ("y", 1/2)]

/-- The corpus of the spec's concrete scenario A (used for C8). -/
def c8corpus : Corpus := [("1.html", ["2.html"]), ("2.html", ["1.html"])]

/-- The uniform rank mapping on `c8corpus` (used for C8). -/
def c8half : RankMap := [("1.html", 1/2), ("2.html", 1/2)]

/-- Two pages that link to each other (used for the C9 witness). -/
def c9corpus : Corpus := [("u", ["v"]), ("v", ["u"])]

/-- A solver state over `c9corpus` (used for the C9 witness). -/
def c9solver : SolverState := ⟨c9corpus, initRank c9corpus, initRank c9corpus⟩

/-- A sampler state over `c9corpus` before a step (used for the C9 witness). -/
def c9sampler : SamplerState := ⟨c9corpus, "u", []⟩

/-- The sampler state after one step from `c9sampler` (used for the C9 witness). -/
def c9sampler2 : SamplerState := ⟨c9corpus, "v", [("v", 1)]⟩

/-- A one-page corpus (used for the C10 witness). -/
def c10corpus : Corpus := [("p1", [])]

/-! ## Helper lemmas -/

/-- `List.lookup` misses exactly when the key is not among the firsts. -/
theorem lookup_eq_none_of_not_mem (c : Corpus) (p : Page) (h : p ∉ corpusKeys c) :
    c.lookup p = none := by
  induction c with
  | nil => rfl
  | cons kv t ih =>
    simp only [corpusKeys, List.map_cons, List.mem_cons, not_or] at h
    have hb : (p == kv.1) = false := by
      simp [h.1]
    simp only [List.lookup, hb]
    exact ih h.2

/-- Looking up any corpus key in a constant-valued map over the corpus yields
that constant. -/
theorem lookup_map_const (c : Corpus) (v : ℚ) (p : Page) (h : p ∈ corpusKeys c) :
    (c.map (fun kv => (kv.1, v))).lookup p = some v := by
  induction c with
  | nil => simp [corpusKeys] at h
  | cons kv t ih =>
    by_cases hp : p = kv.1
    · have hb : (p == kv.1) = true := by simp [hp]
      simp only [List.map_cons, List.lookup, hb]
    · have hb : (p == kv.1) = false := by simp [hp]
      simp only [List.map_cons, List.lookup, hb]
      apply ih
      simp only [corpusKeys, List.map_cons, List.mem_cons] at h
      exact h.resolve_left hp

/-- Folding in-place single-key updates with a fixed value function is the
same as one pointwise map over the association list. -/
theorem foldl_setval (g : Page → ℚ) (order : List Page) (rank : RankMap) :
    order.foldl (fun r q => setval r q (g q)) rank
      = rank.map (fun kv => (kv.1, if kv.1 ∈ order then g kv.1 else kv.2)) := by
  induction order generalizing rank with
  | nil =>
    simp
  | cons q rest ih =>
    rw [List.foldl_cons, ih, setval, List.map_map]
    apply List.map_congr_left
    intro kv _
    by_cases hq : kv.1 = q
    · simp [hq]
    · simp [hq, Function.comp]

/-- The in-place pass aborts (ZeroDivisionError) whenever some page of the
iteration order has a failing update. -/
theorem passPages_of_exists_none (corpus : Corpus) (d : ℚ) (old : RankMap)
    (order : List Page) (rank : RankMap) (c : Bool)
    (h : ∃ q ∈ order, newRank corpus d old q = none) :
    passPages corpus d old order rank c = none := by
  induction order generalizing rank c with
  | nil => simp at h
  | cons q rest ih =>
    obtain ⟨p, hp, hnone⟩ := h
    rcases List.mem_cons.mp hp with rfl | hp2
    · simp only [passPages, hnone]
    · cases hq : newRank corpus d old q with
      | none => simp only [passPages, hq]
      | some v =>
        simp only [passPages, hq]
        exact ih _ _ ⟨p, hp2, hnone⟩

/-- When every update succeeds, the in-place pass is the fold of single-key
updates over the iteration order, with some final convergence flag. -/
theorem passPages_of_all_some (corpus : Corpus) (d : ℚ) (old : RankMap)
    (order : List Page) (rank : RankMap) (c : Bool)
    (h : ∀ q ∈ order, (newRank corpus d old q).isSome) :
    ∃ flag, passPages corpus d old order rank c
      = some (order.foldl (fun r q => setval r q ((newRank corpus d old q).getD 0)) rank, flag) := by
  induction order generalizing rank c with
  | nil => exact ⟨c, rfl⟩
  | cons q rest ih =>
    obtain ⟨v, hv⟩ := Option.isSome_iff_exists.mp (h q (List.mem_cons_self q rest))
    obtain ⟨flag, hflag⟩ := ih (setval rank q v)
      (c || decide ((1 : ℚ)/1000 < |v - ((old.lookup q).getD 0)|))
      (fun p hp => h p (List.mem_cons_of_mem q hp))
    refine ⟨flag, ?_⟩
    simp only [passPages, hv, hflag, List.foldl_cons, Option.getD_some]

/-- The simultaneous pass aborts whenever some listed page has a failing
update. -/
theorem jacobiList_of_exists_none (corpus : Corpus) (d : ℚ) (old : RankMap)
    (l : List Page) (h : ∃ q ∈ l, newRank corpus d old q = none) :
    jacobiList corpus d old l = none := by
  induction l with
  | nil => simp at h
  | cons q rest ih =>
    obtain ⟨p, hp, hnone⟩ := h
    rcases List.mem_cons.mp hp with rfl | hp2
    · simp only [jacobiList, hnone]
    · rw [jacobiList, ih ⟨p, hp2, hnone⟩]
      cases newRank corpus d old q <;> rfl

/-- When every update succeeds, the simultaneous pass is the pointwise map of
`newRank` over the listed pages. -/
theorem jacobiList_of_all_some (corpus : Corpus) (d : ℚ) (old : RankMap)
    (l : List Page) (h : ∀ q ∈ l, (newRank corpus d old q).isSome) :
    jacobiList corpus d old l
      = some (l.map (fun q => (q, (newRank corpus d old q).getD 0))) := by
  induction l with
  | nil => rfl
  | cons q rest ih =>
    obtain ⟨v, hv⟩ := Option.isSome_iff_exists.mp (h q (List.mem_cons_self q rest))
    rw [jacobiList, hv, ih (fun p hp => h p (List.mem_cons_of_mem q hp))]
    simp [hv]

/-- One sampler step never changes the corpus component of the state. -/
theorem sampleStep_corpus (d : ℚ) (pick : ℕ) (s s2 : SamplerState)
    (h : sampleStep d pick s = some s2) : s2.corpus = s.corpus := by
  unfold sampleStep at h
  split at h
  · exact absurd h (by simp)
  · exact absurd h (by simp)
  · split at h
    · exact absurd h (by simp)
    · simp only [Option.some.injEq] at h
      subst h
      rfl

/-- One solver pass never changes the corpus component of the state. -/
theorem solverPass_corpus (d : ℚ) (st st2 : SolverState) (ch : Bool)
    (h : solverPass d st = some (st2, ch)) : st2.corpus = st.corpus := by
  unfold solverPass at h
  split at h
  · exact absurd h (by simp)
  · simp only [Option.some.injEq, Prod.mk.injEq] at h
    rw [← h.1]

/-! ## Claims -/

/-- C1: claimed, each linked page gets `(1-d)/|corpus| + d/|links(page)|` and the
values sum to 1 within 1e-9.  Actually, at the corpus where `a` and `b` link to
each other and damping `17/20`, line 72 adds `len(links)/d = 20/17` instead of
`d/len(links) = 17/20`, so `transition_model` returns `b ↦ 851/680` and the
values sum to `451/340`, which is not within `1e-9` of 1. -/
theorem c1_link_term_inverted_sum_not_one :
    transition_model c1corpus "a" (17/20) = some [("a", 3/40), ("b", 851/680)] ∧
    sumValues [("a", (3 : ℚ)/40), ("b", 851/680)] = 451/340 ∧
    ¬ |(451 : ℚ)/340 - 1| ≤ 1/1000000000 := by
  refine ⟨?_, by norm_num [sumValues], ?_⟩
  · simp [transition_model, c1corpus, List.lookup]
    norm_num
  · rw [not_le, show (451 : ℚ)/340 - 1 = 111/340 by norm_num,
      abs_of_pos (by norm_num : (0 : ℚ) < 111/340)]
    norm_num

/-- C2: claimed, `iterate_pagerank` terminates without a division-by-zero error
on corpora with a dangling page, the dangling page contributing
`rank_prev/N` to every page.  Actually, the dangling page `1.html` is an origin
of every page via `reverse_corpus`, and line 144 divides by
`len(corpus["1.html"]) = 0`, so the very first pass raises ZeroDivisionError
and `iterate_pagerank` returns no ranking at all. -/
theorem c2_dangling_page_division_by_zero :
    solverPass (17/20) c2state = none ∧
    iterate_pagerank c2corpus (17/20) 1000 = none := by
  constructor
  · simp [solverPass, c2state, c2corpus, initRank, passPages, newRank, origins,
      linksOf, List.lookup]
  · simp [iterate_pagerank, iterLoop, loop_should_continue, solverPass, c2corpus,
      initRank, passPages, newRank, origins, linksOf, List.lookup]

/-- C3: claimed, a page with no outbound links is treated as linking to every
page, so a single-page corpus with no links gets probability 1.  Actually,
`transition_model` has no dangling-page rule: the lone page receives only the
base term `(1 - 17/20)/1 = 3/20`, not 1. -/
theorem c3_no_dangling_rule_prob_not_one :
    transition_model c3corpus "1.html" (17/20) = some [("1.html", 3/20)] ∧
    ((3 : ℚ)/20) ≠ 1 := by
  refine ⟨?_, by norm_num⟩
  simp [transition_model, c3corpus, List.lookup]
  norm_num

/-- C4: claimed, the loop stops as soon as convergence is reached OR a fixed
maximum iteration count has been reached.  Actually, the guard of line 131,
`while changes or safety > 1000`, continues whenever `changes` holds no matter
how large `safety` is (the `or` is backwards), and since `safety` is never
incremented it stays 0, where the guard reduces to `changes` alone: the cap
never stops the loop.  (The flag is indeed recomputed freshly each pass.) -/
theorem c4_safety_cap_never_stops_loop :
    (∀ safety : ℕ, loop_should_continue true safety = true) ∧
    (∀ changes : Bool, loop_should_continue changes 0 = changes) := by
  constructor
  · intro s
    simp [loop_should_continue]
  · intro ch
    cases ch <;> simp [loop_should_continue]

/-- C5: claimed, for every damping factor in [0,1] and `n ≥ 1`,
`sample_pagerank` returns a mapping over a subset of the corpus summing to 1.
Actually, at damping 0 on a corpus whose pages have links, the very first
`transition_model` call divides `len(linked)` by the damping factor
(line 72) and raises ZeroDivisionError, so no mapping is returned. -/
theorem c5_sampler_crashes_at_damping_zero :
    sample_pagerank c5corpus 0 (fun _ => 0) 1 = none := by
  decide

/-- C6 counterexample: `sample_pagerank` with `sampleCount = 0` silently
returns the empty mapping instead of reporting a configuration error. -/
theorem c6_zero_samples_silently_empty :
    sample_pagerank c6corpus (17/20) (fun _ => 0) 0 = some [] := by
  decide

/-- C6 amended: `sample_pagerank` performs no validation at entry; for every
non-empty corpus and every `sampleCount ≤ 0` it silently returns the empty
mapping (a normal return, not an error). -/
theorem c6_no_entry_validation (corpus : Corpus) (d : ℚ) (oracle : ℕ → ℕ)
    (n : ℤ) (hne : corpus ≠ []) (hn : n ≤ 0) :
    sample_pagerank corpus d oracle n = some [] := by
  match corpus, hne with
  | c :: cs, _ =>
    have h0 : n.toNat = 0 := Int.toNat_of_nonpos hn
    rw [sample_pagerank, h0]
    rfl

/-- C6 witness: the amended statement holds at a concrete non-empty corpus and
a concrete negative sample count. -/
theorem c6_no_entry_validation_witness :
    c6corpus ≠ [] ∧ (-3 : ℤ) ≤ 0 ∧
    sample_pagerank c6corpus (1/2) (fun _ => 1) (-3) = some [] :=
  ⟨by decide, by decide, c6_no_entry_validation c6corpus (1/2) (fun _ => 1) (-3)
    (by decide) (by decide)⟩

/-- C7: every page is initialised to `1/len(corpus)` (line 111), and one full
pass reads only the frozen `old_rank` snapshot, so its rank result equals the
simultaneous (Jacobi) pass `passJacobi` for every iteration order that is a
permutation of the corpus keys: the pass result is order-independent. -/
theorem c7_init_uniform_and_pass_order_independent :
    (∀ (corpus : Corpus), ∀ p ∈ corpusKeys corpus,
      (initRank corpus).lookup p = some (1 / (corpus.length : ℚ))) ∧
    (∀ (corpus : Corpus) (d : ℚ) (old rank0 : RankMap) (order : List Page)
      (c : Bool),
      rank0.map Prod.fst = corpusKeys corpus →
      order.Perm (corpusKeys corpus) →
      Option.map Prod.fst (passPages corpus d old order rank0 c)
        = passJacobi corpus d old) := by
  constructor
  · intro corpus p h
    exact lookup_map_const corpus _ p h
  · intro corpus d old rank0 order c hkeys hperm
    rw [passJacobi]
    by_cases hex : ∃ q ∈ corpusKeys corpus, newRank corpus d old q = none
    · obtain ⟨q, hq, hnone⟩ := hex
      rw [passPages_of_exists_none corpus d old order rank0 c
        ⟨q, hperm.mem_iff.mpr hq, hnone⟩]
      rw [jacobiList_of_exists_none corpus d old _ ⟨q, hq, hnone⟩]
      rfl
    · push_neg at hex
      have hall : ∀ q ∈ corpusKeys corpus, (newRank corpus d old q).isSome := by
        intro q hq
        exact Option.ne_none_iff_isSome.mp (hex q hq)
      obtain ⟨flag, hpp⟩ := passPages_of_all_some corpus d old order rank0 c
        (fun q hq => hall q (hperm.mem_iff.mp hq))
      rw [hpp, jacobiList_of_all_some corpus d old _ hall]
      simp only [Option.map_some']
      rw [foldl_setval]
      congr 1
      have hmem : ∀ kv ∈ rank0, kv.1 ∈ order := by
        intro kv hkv
        apply hperm.mem_iff.mpr
        rw [← hkeys]
        exact List.mem_map_of_mem Prod.fst hkv
      calc rank0.map (fun kv =>
              (kv.1, if kv.1 ∈ order then (newRank corpus d old kv.1).getD 0 else kv.2))
          = rank0.map (fun kv => (kv.1, (newRank corpus d old kv.1).getD 0)) := by
            apply List.map_congr_left
            intro kv hkv
            simp [hmem kv hkv]
        _ = (rank0.map Prod.fst).map (fun q => (q, (newRank corpus d old q).getD 0)) := by
            rw [List.map_map]; rfl
        _ = (corpusKeys corpus).map (fun q => (q, (newRank corpus d old q).getD 0)) := by
            rw [hkeys]

/-- C7 witness: on a concrete two-page corpus, updating the pages in the
reversed order gives the same pass result as the simultaneous Jacobi pass, and
the initial rank of a key is `1/len(corpus)`. -/
theorem c7_order_independence_witness :
    (initRank c7corpus).lookup "x" = some (1 / (c7corpus.length : ℚ)) ∧
    Option.map Prod.fst (passPages c7corpus (17/20) c7old ["y", "x"] c7old false)
      = passJacobi c7corpus (17/20) c7old :=
  ⟨c7_init_uniform_and_pass_order_independent.1 c7corpus "x" (by decide),
   c7_init_uniform_and_pass_order_independent.2 c7corpus (17/20) c7old c7old
     ["y", "x"] false (by decide) (by decide)⟩

/-- C8: on the two-page cycle of concrete scenario A with damping `17/20`,
`iterate_pagerank` returns exactly rank `1/2` for each page, and the sampling
chain actually drawn by `sample_pagerank` (via `random.choices` over the
`transition_model` weights, implicitly normalised) is a Markov chain whose
rows sum to 1 and whose stationary distribution is `(1/2, 1/2)`, so the visit
frequencies of both pages approach `1/2`. -/
theorem c8_two_page_cycle_half_half :
    iterate_pagerank c8corpus (17/20) 2 = some c8half ∧
    stepProb c8corpus (17/20) "1.html" "1.html"
      + stepProb c8corpus (17/20) "1.html" "2.html" = 1 ∧
    stepProb c8corpus (17/20) "2.html" "1.html"
      + stepProb c8corpus (17/20) "2.html" "2.html" = 1 ∧
    1/2 * stepProb c8corpus (17/20) "1.html" "1.html"
      + 1/2 * stepProb c8corpus (17/20) "2.html" "1.html" = 1/2 ∧
    1/2 * stepProb c8corpus (17/20) "1.html" "2.html"
      + 1/2 * stepProb c8corpus (17/20) "2.html" "2.html" = 1/2 := by
  have htm1 : transition_model c8corpus "1.html" (17/20)
      = some [("1.html", 3/40), ("2.html", 851/680)] := by
    simp [transition_model, c8corpus, List.lookup]
    norm_num
  have htm2 : transition_model c8corpus "2.html" (17/20)
      = some [("1.html", 851/680), ("2.html", 3/40)] := by
    simp [transition_model, c8corpus, List.lookup]
    norm_num
  have hp11 : stepProb c8corpus (17/20) "1.html" "1.html" = 51/902 := by
    rw [stepProb, htm1]
    norm_num [sumValues]
  have hp12 : stepProb c8corpus (17/20) "1.html" "2.html" = 851/902 := by
    have hk : List.lookup "2.html" [("1.html", (3 : ℚ)/40), ("2.html", 851/680)]
        = some (851/680) := rfl
    rw [stepProb, htm1]
    simp only [hk, Option.getD_some]
    norm_num [sumValues]
  have hp21 : stepProb c8corpus (17/20) "2.html" "1.html" = 851/902 := by
    rw [stepProb, htm2]
    norm_num [sumValues]
  have hp22 : stepProb c8corpus (17/20) "2.html" "2.html" = 51/902 := by
    have hk : List.lookup "2.html" [("1.html", (851 : ℚ)/680), ("2.html", 3/40)]
        = some (3/40) := rfl
    rw [stepProb, htm2]
    simp only [hk, Option.getD_some]
    norm_num [sumValues]
  refine ⟨?_, ?_, ?_, ?_, ?_⟩
  · have h1 : newRank c8corpus (17/20) c8half "1.html" = some (1/2) := by
      have ho : origins c8corpus "1.html" = ["2.html"] := by decide
      have hl : linksOf c8corpus "2.html" = ["1.html"] := by decide
      have hk : List.lookup "2.html" c8half = some (1/2) := rfl
      rw [newRank, ho]
      simp only [List.any_cons, List.any_nil, hl, hk, List.map_cons, List.map_nil]
      norm_num [c8corpus]
    have h2 : newRank c8corpus (17/20) c8half "2.html" = some (1/2) := by
      have ho : origins c8corpus "2.html" = ["1.html"] := by decide
      have hl : linksOf c8corpus "1.html" = ["2.html"] := by decide
      have hk : List.lookup "1.html" c8half = some (1/2) := rfl
      rw [newRank, ho]
      simp only [List.any_cons, List.any_nil, hl, hk, List.map_cons, List.map_nil]
      norm_num [c8corpus]
    have hini : initRank c8corpus = c8half := by norm_num [initRank, c8corpus, c8half]
    have hset1 : setval c8half "1.html" (1/2) = c8half := by simp [setval, c8half]
    have hset2 : setval c8half "2.html" (1/2) = c8half := by simp [setval, c8half]
    have hk1 : List.lookup "1.html" c8half = some (1/2) := rfl
    have hk2 : List.lookup "2.html" c8half = some (1/2) := rfl
    have hfl : (decide ((1 : ℚ)/1000 < |1/2 - ((1 : ℚ)/2)|)) = false := by norm_num
    have hkeys : c8half.map Prod.fst = ["1.html", "2.html"] := rfl
    have hpp : passPages c8corpus (17/20) c8half ["1.html", "2.html"] c8half false
        = some (c8half, false) := by
      simp only [passPages, h1, h2, hset1, hset2, hk1, hk2, Option.getD_some, hfl,
        Bool.or_false]
    have hsp : solverPass (17/20) ⟨c8corpus, c8half, c8half⟩
        = some (⟨c8corpus, c8half, c8half⟩, false) := by
      simp only [solverPass, hkeys]
      rw [hpp]
    rw [iterate_pagerank, hini, iterLoop]
    simp only [loop_should_continue, Bool.true_or, if_true, hsp]
    rw [iterLoop]
    norm_num [loop_should_continue]
  · rw [hp11, hp12]; norm_num
  · rw [hp21, hp22]; norm_num
  · rw [hp11, hp21]; norm_num
  · rw [hp12, hp22]; norm_num

/-- C9: neither algorithm mutates the input corpus: every completed run of the
solver's while-loop and of the sampler's loop returns a state whose corpus
component is exactly the input one (the corpus is threaded through both loops
as the Python dict reference is, and no statement writes to it). -/
theorem c9_corpus_never_mutated :
    (∀ (d : ℚ) (fuel : ℕ) (ch : Bool) (sa : ℕ) (st st2 : SolverState),
      iterLoop d fuel ch sa st = some st2 → st2.corpus = st.corpus) ∧
    (∀ (d : ℚ) (oracle : ℕ → ℕ) (n : ℕ) (s s2 : SamplerState),
      sampleLoop d oracle n s = some s2 → s2.corpus = s.corpus) := by
  constructor
  · intro d fuel
    induction fuel with
    | zero =>
      intro ch sa st st2 h
      exact absurd h (by simp [iterLoop])
    | succ k ih =>
      intro ch sa st st2 h
      rw [iterLoop] at h
      by_cases hc : loop_should_continue ch sa = true
      · rw [if_pos hc] at h
        cases hp : solverPass d st with
        | none => rw [hp] at h; exact absurd h (by simp)
        | some p =>
          obtain ⟨st1, ch1⟩ := p
          rw [hp] at h
          replace h : iterLoop d k ch1 sa st1 = some st2 := h
          exact (ih ch1 sa st1 st2 h).trans (solverPass_corpus d st st1 ch1 hp)
      · simp only [Bool.not_eq_true] at hc
        rw [hc] at h
        simp only [Bool.false_eq_true, if_false, Option.some.injEq] at h
        subst h
        rfl
  · intro d oracle n
    induction n generalizing oracle with
    | zero =>
      intro s s2 h
      simp only [sampleLoop, Option.some.injEq] at h
      subst h
      rfl
    | succ k ih =>
      intro s s2 h
      simp only [sampleLoop] at h
      split at h
      · exact absurd h (by simp)
      · rename_i s1 hstep
        exact (ih (fun k => oracle (k + 1)) s1 s2 h).trans
          (sampleStep_corpus d (oracle 0) s s1 hstep)

/-- C9 witness: a completed solver loop and a one-step sampler run on a
concrete corpus leave the corpus component untouched. -/
theorem c9_corpus_never_mutated_witness :
    (iterLoop (17/20) 1 false 0 c9solver = some c9solver ∧
      c9solver.corpus = c9solver.corpus) ∧
    (sampleLoop (17/20) (fun _ => 1) 1 c9sampler = some c9sampler2 ∧
      c9sampler2.corpus = c9sampler.corpus) := by
  have hiter : iterLoop (17/20) 1 false 0 c9solver = some c9solver := rfl
  have htm : transition_model c9corpus "u" (17/20)
      = some [("u", 3/40), ("v", 851/680)] := by
    simp [transition_model, c9corpus, List.lookup]
    norm_num
  have hsample : sampleLoop (17/20) (fun _ => 1) 1 c9sampler = some c9sampler2 := by
    simp only [c9sampler, c9sampler2, sampleLoop, sampleStep, htm]
    rw [if_neg (by norm_num [sumValues])]
    rfl
  exact ⟨⟨hiter, c9_corpus_never_mutated.1 (17/20) 1 false 0 c9solver c9solver hiter⟩,
    ⟨hsample, c9_corpus_never_mutated.2 (17/20) (fun _ => 1) 1 c9sampler c9sampler2 hsample⟩⟩

/-- C10: for every page that is not a key of the corpus, `transition_model`
fails with a key-lookup error (line 64 raises KeyError, embedded as `none`)
and never returns a partial distribution. -/
theorem c10_missing_page_key_error (corpus : Corpus) (page : Page) (d : ℚ)
    (h : page ∉ corpusKeys corpus) : transition_model corpus page d = none := by
  rw [transition_model, lookup_eq_none_of_not_mem corpus page h]

/-- C10 witness: a concrete out-of-corpus page makes `transition_model` fail. -/
theorem c10_missing_page_key_error_witness :
    "zz" ∉ corpusKeys c10corpus ∧ transition_model c10corpus "zz" (17/20) = none :=
  ⟨by decide, c10_missing_page_key_error c10corpus "zz" (17/20) (by decide)⟩
